import Mathlib

/-!
Shallow embedding of the h2olog per-connection collector (main.go).

The program reads newline-delimited JSON events, groups them per connection
in a bounded LRU table, and on a terminal "free" event dispatches the
accumulated entry to an uploader goroutine.

Modelling conventions:
  - A decoded JSON value is a `JValue`; a decoded event (Go
    `map[string]interface{}` produced with `decoder.UseNumber()`) is an
    association list from field name to `JValue`.
  - A Go `json.Number` is modelled as `JValue.num raw asInt`, where `raw`
    is the decimal text (what `%v` prints) and `asInt` is the result of
    its `Int64()` method (`none` when `Int64()` returns an error).
  - A Go run-time panic or `log.Fatalf` terminates the process; every
    function that can panic returns an `Option`, with `none` meaning the
    process (or, for `uploadEvents`, the unrecovered goroutine and hence
    the process) dies.
  - `time.Time` values only ever arise here from `millisToTime`, and the
    zero value `time.Time\x7b\x7d` only from initialization, so a timestamp is
    modelled as `Option Int` (milliseconds); `none` is the zero value,
    matching the `IsZero()` test in the source.
-/

/-- A decoded JSON value as produced by goccy/go-json with UseNumber:
strings, booleans, null, numbers (as `json.Number`), and other composites
(arrays/objects), which the collector treats opaquely. -/
inductive JValue where
  | null : JValue
  | bool (b : Bool) : JValue
  | num (raw : String) (asInt : Option Int) : JValue
  | str (s : String) : JValue
  | other (rendered : String) : JValue
deriving DecidableEq, Repr

/-- A decoded event: Go `map[string]interface{}` keyed by field name. -/
abbrev Event := List (String × JValue)

/-- Field access `rawEvent[k]`: a missing key yields the nil interface,
modelled as `none`. -/
def getField (ev : Event) (k : String) : Option JValue :=
  List.lookup k ev

/-- The `logEntry` struct of main.go, the value type of `connToLogs`. -/
structure LogEntry where
  connID : Int
  startTime : Option Int
  endTime : Option Int
  sentPn : Int
  ackedPn : Int
  processed : Bool
  numEvents : Nat
  events : List Event
deriving DecidableEq, Repr

/-- The fresh `logEntry` literal built at main.go lines 161-170. -/
def freshEntry (connID : Int) : LogEntry :=
  { connID := connID
    startTime := none
    endTime := none
    sentPn := -1
    ackedPn := -1
    processed := false
    numEvents := 0
    events := [] }

/-- The hashicorp golang-lru cache backing `connToLogs`: a capacity plus
the entry list ordered by recency, most recently used first (the library
keeps a doubly linked eviction list with exactly this order). Keys are
unique because the library is backed by a Go map. -/
structure Lru where
  capacity : Nat
  entries : List (Int × LogEntry)
deriving DecidableEq, Repr

/-- Remove the entry with the given key (keys are unique in a map-backed
cache, so filtering is removal of the one entry). -/
def tableRemove (t : List (Int × LogEntry)) (k : Int) : List (Int × LogEntry) :=
  t.filter (fun p => p.1 != k)

/-- Look up a key without touching recency. -/
def tableFind (t : List (Int × LogEntry)) (k : Int) : Option LogEntry :=
  (t.find? (fun p => p.1 == k)).map Prod.snd

/-- golang-lru `Get`: on a hit the entry moves to the front of the
recency list and its value is returned; on a miss, nothing changes. -/
def lruGet (st : Lru) (k : Int) : Option (LogEntry × Lru) :=
  match tableFind st.entries k with
  | none => none
  | some v => some (v, { st with entries := (k, v) :: tableRemove st.entries k })

/-- golang-lru `Add`: an existing key is moved to the front and updated;
a new key is pushed to the front and, if the cache then exceeds its
capacity, the oldest (rearmost) entry is evicted and returned. -/
def lruAdd (st : Lru) (k : Int) (v : LogEntry) : Lru × Option (Int × LogEntry) :=
  match tableFind st.entries k with
  | some _ => ({ st with entries := (k, v) :: tableRemove st.entries k }, none)
  | none =>
    let l := (k, v) :: st.entries
    if st.capacity < l.length then
      ({ st with entries := l.dropLast }, l.getLast?)
    else
      ({ st with entries := l }, none)

/-- The ingest loop mutates the looked-up `*logEntry` in place; after a
`Get` hit or an `Add` the key sits at the front of the recency list, so
the in-place mutation is modelled by replacing the front value. -/
def lruSetFront (st : Lru) (k : Int) (v : LogEntry) : Lru :=
  match st.entries with
  | [] => st
  | _ :: rest => { st with entries := (k, v) :: rest }

/-- `connToLogs = mustLruMap(10000)` (main.go line 33). -/
def connToLogs : Lru :=
  { capacity := 10000, entries := [] }

/-- The default of the `-max-num-events` flag (main.go line 28). -/
def maxNumEventsDefault : Int := 100000

/-- Whether `eventType == s` holds for the Go interface comparison of
`rawEvent["type"]` against a string literal. -/
def isType (ev : Event) (s : String) : Bool :=
  getField ev "type" == some (JValue.str s)

/-- Whether the event is the terminal `"free"` event. -/
def isFree (ev : Event) : Bool :=
  isType ev "free"

/-- Whether the field is present and decoded as a `json.Number` — the
condition under which the type assertion `.(json.Number)` does not
panic. -/
def hasNumField (ev : Event) (k : String) : Bool :=
  match getField ev k with
  | some (JValue.num _ _) => true
  | _ => false

/-- An event the loop body survives: its `time` field is a number, and
when it is a `"packet-sent"` or `"packet-acked"` event its `pn` field is
a number too. -/
def benign (ev : Event) : Bool :=
  hasNumField ev "time" &&
    (!(isType ev "packet-sent") || hasNumField ev "pn") &&
    (!(isType ev "packet-acked") || hasNumField ev "pn")

/-- The `time` handling of `readJSONLine` (main.go lines 178-187): when
`Int64()` succeeded on the `time` field, set `startTime` once (the
`IsZero` test) and overwrite `endTime`; when it errored, change
nothing. -/
def timeUpdate (entry : LogEntry) (ti : Option Int) : LogEntry :=
  match ti with
  | some t =>
    { entry with
      startTime := if entry.startTime.isNone then some t else entry.startTime
      endTime := some t }
  | none => entry

/-- The `pn` handling of `readJSONLine` (main.go lines 189-201): on a
`"packet-sent"` (resp. `"packet-acked"`) event, the `pn` field is
type-asserted to `json.Number` — absent, null or non-number panics
(`none`) — and overwrites `sentPn` (resp. `ackedPn`) when `Int64()`
succeeds. -/
def pnUpdate (entry : LogEntry) (ev : Event) : Option LogEntry :=
  if isType ev "packet-sent" then
    match getField ev "pn" with
    | some (JValue.num _ (some pn)) => some { entry with sentPn := pn }
    | some (JValue.num _ none) => some entry
    | _ => none
  else if isType ev "packet-acked" then
    match getField ev "pn" with
    | some (JValue.num _ (some pn)) => some { entry with ackedPn := pn }
    | some (JValue.num _ none) => some entry
    | _ => none
  else
    some entry

/-- The tail of the loop body (main.go lines 203-220): increment
`numEvents`, append the raw event when one slot below the cap remains or
the event is `"free"` (the reserved-slot rule of line 206), and on
`"free"` mark the entry processed and dispatch it to `uploadEvents`.
The returned Bool is whether a dispatch happened. -/
def recordEvent (maxN : Int) (entry : LogEntry) (ev : Event) : LogEntry × Bool :=
  let entry3 := { entry with numEvents := entry.numEvents + 1 }
  let entry4 :=
    if ((entry3.events.length : Int) + 1 < maxN) ∨ isFree ev then
      { entry3 with events := entry3.events ++ [ev] }
    else
      entry3
  if isFree ev then
    ({ entry4 with processed := true }, true)
  else
    (entry4, false)

/-- The body of the per-event part of `readJSONLine` (main.go lines
174-220), acting on the looked-up entry: the `processed` early-out, then
`timeUpdate`, `pnUpdate` and `recordEvent`. `none` models a panic (the
single-valued type assertion `.(json.Number)` on `time` panics when the
field is absent, null, or not a number, and likewise for `pn` inside
`pnUpdate`). -/
def applyEvent (maxN : Int) (entry : LogEntry) (ev : Event) : Option (LogEntry × Bool) :=
  if entry.processed then
    some (entry, false)
  else
    match getField ev "time" with
    | some (JValue.num _ ti) =>
      match pnUpdate (timeUpdate entry ti) ev with
      | none => none
      | some entry2 => some (recordEvent maxN entry2 ev)
    | _ => none

/-- One step of `readJSONLine` for one decoded event line (main.go lines
147-220): the `conn == nil` skip, the connection-id extraction (a
non-number `conn` panics at the type assertion, an unparsable
`json.Number` hits `log.Fatalf`), the LRU lookup-or-insert, and
`applyEvent`. -/
structure StepOut where
  table : Lru
  dispatched : Option LogEntry
  evicted : Option (Int × LogEntry)
deriving DecidableEq, Repr

/-- Process one decoded event against the connection table. `none`
models process death (panic or `log.Fatalf`). -/
def processEvent (maxN : Int) (st : Lru) (ev : Event) : Option StepOut :=
  match getField ev "conn" with
  | none => some ⟨st, none, none⟩
  | some JValue.null => some ⟨st, none, none⟩
  | some (JValue.num _ none) => none
  | some (JValue.num _ (some connID)) =>
    match lruGet st connID with
    | some (entry, st1) =>
      match applyEvent maxN entry ev with
      | none => none
      | some (e, d) =>
        some ⟨lruSetFront st1 connID e, if d then some e else none, none⟩
    | none =>
      let entry := freshEntry connID
      let (st1, evd) := lruAdd st connID entry
      match applyEvent maxN entry ev with
      | none => none
      | some (e, d) =>
        some ⟨lruSetFront st1 connID e, if d then some e else none, evd⟩
  | some _ => none

/-- Process a list of decoded events in order, collecting the entries
handed to `uploadEvents` goroutines. -/
def processEvents (maxN : Int) (st : Lru) : List Event → Option (Lru × List LogEntry)
  | [] => some (st, [])
  | ev :: rest =>
    match processEvent maxN st ev with
    | none => none
    | some out =>
      match processEvents maxN out.table rest with
      | none => none
      | some (st2, ds) => some (st2, out.dispatched.toList ++ ds)

/-- Entry-level run: apply a list of events to one connection's entry,
collecting the dispatched (finalized) snapshots. -/
def applyEvents (maxN : Int) (e : LogEntry) : List Event → Option (LogEntry × List LogEntry)
  | [] => some (e, [])
  | ev :: rest =>
    match applyEvent maxN e ev with
    | none => none
    | some (e1, d) =>
      match applyEvents maxN e1 rest with
      | none => none
      | some (e2, ds) => some (e2, (if d then [e1] else []) ++ ds)

/-- What `%v` prints for the values the name builder can meet: the raw
text of a `json.Number`, a string verbatim. -/
def goFormat : JValue → String
  | JValue.null => "<nil>"
  | JValue.bool b => if b then "true" else "false"
  | JValue.num raw _ => raw
  | JValue.str s => s
  | JValue.other rendered => rendered

/-- `buildObjectName` (main.go lines 225-241): scan the stored events for
the first `"accept"` event and format `host-dcid-time`; `none` models the
three `panic` calls (no accept event, nil dcid, nil time). -/
def buildObjectName (host : String) (entry : LogEntry) : Option String :=
  match entry.events.find? (fun ev => getField ev "type" == some (JValue.str "accept")) with
  | none => none
  | some ev =>
    match getField ev "dcid" with
    | none => none
    | some JValue.null => none
    | some d =>
      match getField ev "time" with
      | none => none
      | some JValue.null => none
      | some t => some (host ++ "-" ++ goFormat d ++ "-" ++ goFormat t)

/-- The `h2ologEventRoot` GCS object schema (main.go lines 45-67). -/
structure H2ologEventRoot where
  id : String
  host : String
  startTime : Option Int
  endTime : Option Int
  numEvents : Nat
  connID : Int
  sentPn : Int
  ackedPn : Int
  payload : List Event
deriving DecidableEq, Repr

/-- `serializeEvents` (main.go lines 243-256): build the envelope from
the entry. The byte-level `json.Marshal` is out of scope; the envelope
fields are what the claims speak about. -/
def serializeEvents (host : String) (id : String) (entry : LogEntry) : H2ologEventRoot :=
  { id := id
    host := host
    startTime := entry.startTime
    endTime := entry.endTime
    numEvents := entry.numEvents
    connID := entry.connID
    sentPn := entry.sentPn
    ackedPn := entry.ackedPn
    payload := entry.events }

/-- `uploadEvents` (main.go lines 258-277) up to the sink write: build
the object name and the envelope. It runs in a goroutine without any
`recover`, so `none` (a panic inside `buildObjectName`) kills the whole
process. -/
def uploadEvents (host : String) (entry : LogEntry) : Option (String × H2ologEventRoot) :=
  match buildObjectName host entry with
  | none => none
  | some name => some (name, serializeEvents host name entry)

/-- Trace of one `storageManager.write` call (main.go lines 88-111):
which sinks were attempted and whether the call returned nil. -/
structure WriteAttempts where
  localAttempted : Bool
  bucketAttempted : Bool
  ok : Bool
deriving DecidableEq, Repr

/-- `storageManager.write`: the local-directory write runs first and an
error returns immediately, then the bucket write runs and an error from
`Write` or `Close` returns. The outcome of each external write is an
input (`localOk`, `bucketWriteOk`, `bucketCloseOk`). -/
def storageWrite (localConfigured bucketConfigured localOk bucketWriteOk bucketCloseOk : Bool) :
    WriteAttempts :=
  if localConfigured then
    if !localOk then
      ⟨true, false, false⟩
    else if bucketConfigured then
      ⟨true, true, bucketWriteOk && bucketCloseOk⟩
    else
      ⟨true, false, true⟩
  else if bucketConfigured then
    ⟨false, true, bucketWriteOk && bucketCloseOk⟩
  else
    ⟨false, false, true⟩

/-!
Helper lemmas about the loop body and entry-level runs. These are shared
by the claim theorems below.
-/

theorem timeUpdate_fields (entry : LogEntry) (ti : Option Int) :
    (timeUpdate entry ti).processed = entry.processed ∧
    (timeUpdate entry ti).connID = entry.connID ∧
    (timeUpdate entry ti).numEvents = entry.numEvents ∧
    (timeUpdate entry ti).events = entry.events := by
  cases ti <;> simp [timeUpdate]

theorem pnUpdate_fields (entry e2 : LogEntry) (ev : Event)
    (h : pnUpdate entry ev = some e2) :
    e2.processed = entry.processed ∧ e2.connID = entry.connID ∧
    e2.numEvents = entry.numEvents ∧ e2.events = entry.events ∧
    e2.startTime = entry.startTime ∧ e2.endTime = entry.endTime := by
  unfold pnUpdate at h
  by_cases hs : isType ev "packet-sent" = true
  · rw [if_pos hs] at h
    cases hpn : getField ev "pn" with
    | none => rw [hpn] at h; simp at h
    | some v =>
      rw [hpn] at h
      cases v with
      | num raw pi =>
        cases pi with
        | none => simp at h; subst h; simp
        | some pn => simp at h; subst h; simp
      | null => simp at h
      | bool b => simp at h
      | str s => simp at h
      | other r => simp at h
  · rw [if_neg hs] at h
    by_cases ha : isType ev "packet-acked" = true
    · rw [if_pos ha] at h
      cases hpn : getField ev "pn" with
      | none => rw [hpn] at h; simp at h
      | some v =>
        rw [hpn] at h
        cases v with
        | num raw pi =>
          cases pi with
          | none => simp at h; subst h; simp
          | some pn => simp at h; subst h; simp
        | null => simp at h
        | bool b => simp at h
        | str s => simp at h
        | other r => simp at h
    · rw [if_neg ha] at h
      simp at h
      subst h
      simp

theorem pnUpdate_isSome (entry : LogEntry) (ev : Event)
    (hb : benign ev = true) : (pnUpdate entry ev).isSome := by
  unfold benign at hb
  simp only [Bool.and_eq_true, Bool.or_eq_true, Bool.not_eq_true'] at hb
  unfold pnUpdate
  by_cases hs : isType ev "packet-sent" = true
  · rw [if_pos hs]
    rcases hb.1.2 with hfalse | hnum
    · rw [hs] at hfalse; exact absurd hfalse (by simp)
    · unfold hasNumField at hnum
      cases hpn : getField ev "pn" with
      | none => rw [hpn] at hnum; simp at hnum
      | some v =>
        rw [hpn] at hnum
        cases v with
        | num raw pi => cases pi <;> simp
        | null => simp at hnum
        | bool b => simp at hnum
        | str s => simp at hnum
        | other r => simp at hnum
  · rw [if_neg hs]
    by_cases ha : isType ev "packet-acked" = true
    · rw [if_pos ha]
      rcases hb.2 with hfalse | hnum
      · rw [ha] at hfalse; exact absurd hfalse (by simp)
      · unfold hasNumField at hnum
        cases hpn : getField ev "pn" with
        | none => rw [hpn] at hnum; simp at hnum
        | some v =>
          rw [hpn] at hnum
          cases v with
          | num raw pi => cases pi <;> simp
          | null => simp at hnum
          | bool b => simp at hnum
          | str s => simp at hnum
          | other r => simp at hnum
    · rw [if_neg ha]
      simp

theorem recordEvent_spec (maxN : Int) (entry : LogEntry) (ev : Event) :
    (recordEvent maxN entry ev).2 = isFree ev ∧
    (recordEvent maxN entry ev).1.processed = (entry.processed || isFree ev) ∧
    (recordEvent maxN entry ev).1.connID = entry.connID ∧
    (recordEvent maxN entry ev).1.numEvents = entry.numEvents + 1 ∧
    (recordEvent maxN entry ev).1.startTime = entry.startTime ∧
    (recordEvent maxN entry ev).1.endTime = entry.endTime ∧
    (recordEvent maxN entry ev).1.sentPn = entry.sentPn ∧
    (recordEvent maxN entry ev).1.ackedPn = entry.ackedPn ∧
    (recordEvent maxN entry ev).1.events =
      (if ((entry.events.length : Int) + 1 < maxN ∨ isFree ev = true)
        then entry.events ++ [ev] else entry.events) := by
  unfold recordEvent
  by_cases hfree : isFree ev = true <;>
    by_cases hlen : ((entry.events.length : Int) + 1 < maxN) <;>
      simp [hfree, hlen]

theorem applyEvent_processed (maxN : Int) (e : LogEntry) (ev : Event)
    (hp : e.processed = true) : applyEvent maxN e ev = some (e, false) := by
  unfold applyEvent
  rw [hp]
  simp

theorem applyEvent_cases (maxN : Int) (e : LogEntry) (ev : Event) (e1 : LogEntry) (d : Bool)
    (h : applyEvent maxN e ev = some (e1, d)) :
    (e.processed = true ∧ e1 = e ∧ d = false) ∨
    (e.processed = false ∧ d = isFree ev ∧ e1.processed = isFree ev ∧
      e1.connID = e.connID ∧ e1.numEvents = e.numEvents + 1 ∧
      e1.events = (if ((e.events.length : Int) + 1 < maxN ∨ isFree ev = true)
        then e.events ++ [ev] else e.events)) := by
  unfold applyEvent at h
  by_cases hp : e.processed = true
  · rw [hp] at h
    simp at h
    exact Or.inl ⟨hp, h.1.symm, h.2⟩
  · right
    rw [Bool.not_eq_true] at hp
    rw [hp] at h
    simp only [Bool.false_eq_true, if_false] at h
    refine ⟨hp, ?_⟩
    cases htime : getField ev "time" with
    | none => rw [htime] at h; simp at h
    | some v =>
      rw [htime] at h
      cases v with
      | num raw ti =>
        simp only at h
        cases h2 : pnUpdate (timeUpdate e ti) ev with
        | none => rw [h2] at h; simp at h
        | some e2 =>
          rw [h2] at h
          simp only [Option.some_inj] at h
          have hr := recordEvent_spec maxN e2 ev
          have hpn := pnUpdate_fields (timeUpdate e ti) e2 ev h2
          have htu := timeUpdate_fields e ti
          have he1 : e1 = (recordEvent maxN e2 ev).1 := by rw [h]
          have hd : d = (recordEvent maxN e2 ev).2 := by rw [h]
          have hproc : e2.processed = false := by
            rw [hpn.1, htu.1, hp]
          have hcid : e2.connID = e.connID := by rw [hpn.2.1, htu.2.1]
          have hnum : e2.numEvents = e.numEvents := by rw [hpn.2.2.1, htu.2.2.1]
          have hevs : e2.events = e.events := by rw [hpn.2.2.2.1, htu.2.2.2]
          refine ⟨?_, ?_, ?_, ?_, ?_⟩
          · rw [hd, hr.1]
          · rw [he1, hr.2.1, hproc, Bool.false_or]
          · rw [he1, hr.2.2.1, hcid]
          · rw [he1, hr.2.2.2.1, hnum]
          · rw [he1, hr.2.2.2.2.2.2.2.2, hevs]
      | null => simp at h
      | bool b => simp at h
      | str s => simp at h
      | other r => simp at h

theorem applyEvent_isSome (maxN : Int) (e : LogEntry) (ev : Event)
    (hb : benign ev = true) : (applyEvent maxN e ev).isSome := by
  unfold applyEvent
  by_cases hp : e.processed = true
  · rw [hp]; simp
  · rw [Bool.not_eq_true] at hp
    rw [hp]
    simp only [Bool.false_eq_true, if_false]
    have htn : hasNumField ev "time" = true := by
      unfold benign at hb
      simp only [Bool.and_eq_true] at hb
      exact hb.1.1
    unfold hasNumField at htn
    cases htime : getField ev "time" with
    | none => rw [htime] at htn; simp at htn
    | some v =>
      rw [htime] at htn
      cases v with
      | num raw ti =>
        simp only
        have hs := pnUpdate_isSome (timeUpdate e ti) ev hb
        cases h2 : pnUpdate (timeUpdate e ti) ev with
        | none => rw [h2] at hs; simp at hs
        | some e2 => simp
      | null => simp at htn
      | bool b => simp at htn
      | str s => simp at htn
      | other r => simp at htn

theorem applyEvents_nonfree (maxN : Int) (es : List Event) (e : LogEntry)
    (hp : e.processed = false)
    (hes : ∀ ev ∈ es, benign ev = true ∧ isFree ev = false) :
    ∃ e2, applyEvents maxN e es = some (e2, []) ∧
      e2.processed = false ∧ e2.connID = e.connID ∧
      e2.numEvents = e.numEvents + es.length ∧
      e2.events = e.events ++ es.take ((maxN - 1 - (e.events.length : Int)).toNat) := by
  induction es generalizing e with
  | nil => exact ⟨e, rfl, hp, rfl, by simp, by simp⟩
  | cons ev rest ih =>
    have hev := hes ev (List.mem_cons_self _ _)
    have hsome := applyEvent_isSome maxN e ev hev.1
    obtain ⟨⟨e1, d⟩, h1⟩ := Option.isSome_iff_exists.mp hsome
    rcases applyEvent_cases maxN e ev e1 d h1 with ⟨hpt, _, _⟩ | ⟨_, hd, hproc1, hcid1, hnum1, hevs1⟩
    · rw [hp] at hpt; exact absurd hpt (by simp)
    · have hfree : isFree ev = false := hev.2
      rw [hfree] at hd hproc1
      obtain ⟨e2, h2, hproc2, hcid2, hnum2, hevs2⟩ :=
        ih e1 hproc1 (fun x hx => hes x (List.mem_cons_of_mem _ hx))
      refine ⟨e2, ?_, hproc2, by rw [hcid2, hcid1], ?_, ?_⟩
      · simp [applyEvents, h1, h2, hd]
      · rw [hnum2, hnum1, List.length_cons]; omega
      · rw [hevs2, hevs1]
        by_cases hlen : ((e.events.length : Int) + 1 < maxN)
        · rw [if_pos (Or.inl hlen)]
          rw [List.append_assoc]
          congr 1
          have hk : ((maxN - 1 - (e.events.length : Int)).toNat) =
              ((maxN - 1 - ((e.events ++ [ev]).length : Int)).toNat) + 1 := by
            rw [List.length_append, List.length_cons, List.length_nil]
            omega
          rw [hk, List.take_succ_cons]
          rfl
        · have hcond : ¬ ((e.events.length : Int) + 1 < maxN ∨ isFree ev = true) := by
            rw [hfree]
            simp [hlen]
          rw [if_neg hcond]
          have hk0 : ((maxN - 1 - (e.events.length : Int)).toNat) = 0 := by omega
          rw [hk0]
          simp

theorem applyEvents_append_some (maxN : Int) (l1 l2 : List Event) (e e1 e2 : LogEntry)
    (ds1 ds2 : List LogEntry)
    (h1 : applyEvents maxN e l1 = some (e1, ds1))
    (h2 : applyEvents maxN e1 l2 = some (e2, ds2)) :
    applyEvents maxN e (l1 ++ l2) = some (e2, ds1 ++ ds2) := by
  induction l1 generalizing e ds1 with
  | nil =>
    simp only [applyEvents, Option.some_inj, Prod.mk.injEq] at h1
    obtain ⟨h1a, h1b⟩ := h1
    subst h1a
    subst h1b
    simpa using h2
  | cons ev rest ih =>
    rw [List.cons_append]
    simp only [applyEvents] at h1 ⊢
    cases ha : applyEvent maxN e ev with
    | none => rw [ha] at h1; simp at h1
    | some p =>
      obtain ⟨em, d⟩ := p
      rw [ha] at h1
      simp only at h1 ⊢
      cases hr : applyEvents maxN em rest with
      | none => rw [hr] at h1; simp at h1
      | some q =>
        obtain ⟨e1x, dsx⟩ := q
        rw [hr] at h1
        simp only [Option.some_inj, Prod.mk.injEq] at h1
        obtain ⟨h1a, h1b⟩ := h1
        subst h1a
        subst h1b
        rw [ih em dsx hr]
        simp [List.append_assoc]

theorem applyEvents_run_free (maxN : Int) (es : List Event) (fv : Event) (c : Int)
    (hes : ∀ ev ∈ es, benign ev = true ∧ isFree ev = false)
    (hbf : benign fv = true) (hff : isFree fv = true) :
    ∃ e3, applyEvents maxN (freshEntry c) (es ++ [fv]) = some (e3, [e3]) ∧
      e3.processed = true ∧ e3.connID = c ∧
      e3.numEvents = es.length + 1 ∧
      e3.events = es.take ((maxN - 1).toNat) ++ [fv] := by
  obtain ⟨e2, h2, hproc2, hcid2, hnum2, hevs2⟩ :=
    applyEvents_nonfree maxN es (freshEntry c) rfl hes
  have hsome := applyEvent_isSome maxN e2 fv hbf
  obtain ⟨⟨e3, d⟩, h3⟩ := Option.isSome_iff_exists.mp hsome
  rcases applyEvent_cases maxN e2 fv e3 d h3 with ⟨hpt, _, _⟩ | ⟨_, hd, hproc3, hcid3, hnum3, hevs3⟩
  · rw [hproc2] at hpt; exact absurd hpt (by simp)
  · rw [hff] at hd hproc3
    rw [if_pos (Or.inr hff)] at hevs3
    have hfin : applyEvents maxN e2 [fv] = some (e3, [e3]) := by
      simp [applyEvents, h3, hd]
    refine ⟨e3, applyEvents_append_some maxN es [fv] (freshEntry c) e2 e3 [] [e3] h2 hfin,
      hproc3, ?_, ?_, ?_⟩
    · rw [hcid3, hcid2]; rfl
    · rw [hnum3, hnum2]; simp [freshEntry]
    · rw [hevs3, hevs2]
      simp [freshEntry]

/-!
Lemmas about the connection table, and the claim theorems C1 and C4.
-/

theorem tableRemove_length_lt (t : List (Int × LogEntry)) (k : Int) (v : LogEntry)
    (h : tableFind t k = some v) : (tableRemove t k).length < t.length := by
  apply List.length_filter_lt_length_iff_exists.mpr
  unfold tableFind at h
  cases hf : t.find? (fun p => p.1 == k) with
  | none => rw [hf] at h; simp at h
  | some p =>
    refine ⟨p, List.mem_of_find?_eq_some hf, ?_⟩
    have hp := List.find?_some hf
    simp only [bne, Bool.not_eq_true] at *
    simp [hp]

theorem not_mem_keys_tableRemove (t : List (Int × LogEntry)) (k : Int) :
    k ∉ (tableRemove t k).map Prod.fst := by
  intro hmem
  obtain ⟨p, hp, hk⟩ := List.mem_map.mp hmem
  have := List.of_mem_filter hp
  rw [hk] at this
  simp at this

theorem keys_tableRemove_nodup (t : List (Int × LogEntry)) (k : Int)
    (h : (t.map Prod.fst).Nodup) : ((tableRemove t k).map Prod.fst).Nodup :=
  h.sublist ((List.filter_sublist t).map Prod.fst)

theorem tableFind_eq_none_iff (t : List (Int × LogEntry)) (k : Int) :
    tableFind t k = none ↔ ∀ p ∈ t, p.1 ≠ k := by
  unfold tableFind
  rw [Option.map_eq_none', List.find?_eq_none]
  constructor
  · intro h p hp
    have := h p hp
    simpa using this
  · intro h p hp
    simpa using h p hp

/-- C1: once an entry is finalized (processed), a later event for the
same connection identifier only refreshes the LRU recency: the entry is
returned unchanged, nothing is dispatched and nothing is evicted; and
conversely, any step that dispatches an upload does so for an entry that
was not finalized before the step and is finalized by it — so at most
one upload is ever dispatched per entry while it stays in the table. -/
theorem spec_c1 :
    (∀ (maxN : Int) (st : Lru) (ev : Event) (raw : String) (c : Int) (e : LogEntry),
      getField ev "conn" = some (JValue.num raw (some c)) →
      tableFind st.entries c = some e →
      e.processed = true →
      processEvent maxN st ev =
        some ⟨{ st with entries := (c, e) :: tableRemove st.entries c }, none, none⟩) ∧
    (∀ (maxN : Int) (st : Lru) (ev : Event) (out : StepOut) (d : LogEntry),
      processEvent maxN st ev = some out →
      out.dispatched = some d →
      d.processed = true ∧
      ∀ (raw : String) (c : Int) (e : LogEntry),
        getField ev "conn" = some (JValue.num raw (some c)) →
        tableFind st.entries c = some e →
        e.processed = false) := by
  constructor
  · intro maxN st ev raw c e hconn hfind hproc
    unfold processEvent
    rw [hconn]
    simp only
    unfold lruGet
    rw [hfind]
    simp only
    rw [applyEvent_processed maxN e ev hproc]
    simp only [lruSetFront]
    rfl
  · intro maxN st ev out d hstep hdisp
    unfold processEvent at hstep
    cases hconn : getField ev "conn" with
    | none =>
      rw [hconn] at hstep
      simp only [Option.some_inj] at hstep
      rw [← hstep] at hdisp
      simp at hdisp
    | some v =>
      rw [hconn] at hstep
      cases v with
      | null =>
        simp only [Option.some_inj] at hstep
        rw [← hstep] at hdisp
        simp at hdisp
      | num raw0 ci =>
        cases ci with
        | none => simp at hstep
        | some c0 =>
          simp only at hstep
          cases hget : lruGet st c0 with
          | some p =>
            obtain ⟨entry, st1⟩ := p
            rw [hget] at hstep
            simp only at hstep
            cases happ : applyEvent maxN entry ev with
            | none => rw [happ] at hstep; simp at hstep
            | some q =>
              obtain ⟨e1, d0⟩ := q
              rw [happ] at hstep
              simp only [Option.some_inj] at hstep
              rw [← hstep] at hdisp
              simp only at hdisp
              by_cases hd0 : d0 = true
              · rw [hd0] at hdisp
                simp only [if_true, Option.some_inj] at hdisp
                rcases applyEvent_cases maxN entry ev e1 d0 happ with ⟨_, _, hdf⟩ | ⟨hpf, hd, hpr, _, _, _⟩
                · rw [hd0] at hdf; exact absurd hdf (by simp)
                · rw [hd0] at hd
                  constructor
                  · rw [← hdisp, hpr, ← hd]
                  · intro raw1 c1 e1x hconn1 hfind1
                    injection hconn1 with hj
                    injection hj with hraw hci
                    injection hci with hc
                    rw [← hc] at hfind1
                    unfold lruGet at hget
                    cases hf : tableFind st.entries c0 with
                    | none => rw [hf] at hget; simp at hget
                    | some vv =>
                      rw [hf] at hget
                      simp only [Option.some_inj, Prod.mk.injEq] at hget
                      rw [hf] at hfind1
                      have he1x : e1x = entry := by
                        rw [hget.1] at hfind1
                        exact (Option.some_inj.mp hfind1).symm
                      rw [he1x]
                      exact hpf
              · rw [Bool.not_eq_true] at hd0
                rw [hd0] at hdisp
                simp at hdisp
          | none =>
            rw [hget] at hstep
            simp only at hstep
            cases hadd : lruAdd st c0 (freshEntry c0) with
            | mk st1 evd =>
              rw [hadd] at hstep
              simp only at hstep
              cases happ : applyEvent maxN (freshEntry c0) ev with
              | none => rw [happ] at hstep; simp at hstep
              | some q =>
                obtain ⟨e1, d0⟩ := q
                rw [happ] at hstep
                simp only [Option.some_inj] at hstep
                rw [← hstep] at hdisp
                simp only at hdisp
                by_cases hd0 : d0 = true
                · rw [hd0] at hdisp
                  simp only [if_true, Option.some_inj] at hdisp
                  rcases applyEvent_cases maxN (freshEntry c0) ev e1 d0 happ with ⟨hpt, _, _⟩ | ⟨_, hd, hpr, _, _, _⟩
                  · exact absurd hpt (by simp [freshEntry])
                  · rw [hd0] at hd
                    constructor
                    · rw [← hdisp, hpr, ← hd]
                    · intro raw1 c1 e1x hconn1 hfind1
                      injection hconn1 with hj
                      injection hj with hraw hci
                      injection hci with hc
                      rw [← hc] at hfind1
                      unfold lruGet at hget
                      cases hf : tableFind st.entries c0 with
                      | none => rw [hf] at hfind1; simp at hfind1
                      | some vv => rw [hf] at hget; simp at hget
                · rw [Bool.not_eq_true] at hd0
                  rw [hd0] at hdisp
                  simp at hdisp
      | bool b => simp at hstep
      | str s => simp at hstep
      | other r => simp at hstep

theorem applyEvent_connID (maxN : Int) (e e1 : LogEntry) (ev : Event) (d : Bool)
    (h : applyEvent maxN e ev = some (e1, d)) : e1.connID = e.connID := by
  rcases applyEvent_cases maxN e ev e1 d h with ⟨_, he, _⟩ | ⟨_, _, _, hc, _, _⟩
  · rw [he]
  · exact hc

def keysNodup (st : Lru) : Prop := (st.entries.map Prod.fst).Nodup

/-- C4: the table is created with capacity 10000 and empty; every step
preserves the capacity bound and key uniqueness, an eviction only
happens when the table is full, evicts exactly the least recently
accessed (rearmost) entry, removes that key from the table, and the
evicted entry is not the one dispatched for upload in that step. -/
theorem spec_c4 :
    connToLogs.capacity = 10000 ∧ connToLogs.entries.length = 0 ∧
    ∀ (maxN : Int) (st : Lru) (ev : Event) (out : StepOut),
      1 ≤ st.capacity → keysNodup st → st.entries.length ≤ st.capacity →
      processEvent maxN st ev = some out →
      out.table.capacity = st.capacity ∧
      out.table.entries.length ≤ st.capacity ∧
      keysNodup out.table ∧
      (∀ k e0, out.evicted = some (k, e0) →
        st.entries.length = st.capacity ∧
        st.entries.getLast? = some (k, e0) ∧
        tableFind out.table.entries k = none ∧
        (∀ d, out.dispatched = some d → d.connID ≠ k)) := by
  refine ⟨rfl, rfl, ?_⟩
  intro maxN st ev out hcap hnd hlen hstep
  unfold processEvent at hstep
  cases hconn : getField ev "conn" with
  | none =>
    rw [hconn] at hstep
    simp only [Option.some_inj] at hstep
    rw [← hstep]
    exact ⟨rfl, hlen, hnd, by intro k e0 hev; simp at hev⟩
  | some v =>
    rw [hconn] at hstep
    cases v with
    | null =>
      simp only [Option.some_inj] at hstep
      rw [← hstep]
      exact ⟨rfl, hlen, hnd, by intro k e0 hev; simp at hev⟩
    | num raw0 ci =>
      cases ci with
      | none => simp at hstep
      | some c0 =>
        simp only at hstep
        cases hget : lruGet st c0 with
        | some p =>
          obtain ⟨entry, st1⟩ := p
          rw [hget] at hstep
          simp only at hstep
          cases happ : applyEvent maxN entry ev with
          | none => rw [happ] at hstep; simp at hstep
          | some q =>
            obtain ⟨e1, d0⟩ := q
            rw [happ] at hstep
            simp only [Option.some_inj] at hstep
            unfold lruGet at hget
            cases hf : tableFind st.entries c0 with
            | none => rw [hf] at hget; simp at hget
            | some vv =>
              rw [hf] at hget
              simp only [Option.some_inj, Prod.mk.injEq] at hget
              rw [← hget.2] at hstep
              rw [← hstep]
              simp only [lruSetFront]
              refine ⟨trivial, ?_, ?_, ?_⟩
              · have := tableRemove_length_lt st.entries c0 vv hf
                simp only [List.length_cons]
                omega
              · unfold keysNodup at hnd ⊢
                simp only [List.map_cons]
                exact List.nodup_cons.mpr
                  ⟨not_mem_keys_tableRemove st.entries c0, keys_tableRemove_nodup st.entries c0 hnd⟩
              · intro k e0 hev
                simp at hev
        | none =>
          rw [hget] at hstep
          simp only at hstep
          unfold lruGet at hget
          cases hf : tableFind st.entries c0 with
          | some vv => rw [hf] at hget; simp at hget
          | none =>
            have hnotin : ∀ p ∈ st.entries, p.1 ≠ c0 := (tableFind_eq_none_iff st.entries c0).mp hf
            unfold lruAdd at hstep
            rw [hf] at hstep
            simp only at hstep
            by_cases hov : st.capacity < ((c0, freshEntry c0) :: st.entries).length
            · rw [if_pos hov] at hstep
              simp only [List.length_cons] at hov
              have hlencap : st.entries.length = st.capacity := by omega
              have hne : st.entries ≠ [] := by
                intro hnil
                rw [hnil] at hlencap
                simp at hlencap
                omega
              cases hse : st.entries with
              | nil => exact absurd hse hne
              | cons phd ptl =>
                rw [hse] at hstep
                rw [List.dropLast_cons₂] at hstep
                rw [List.getLast?_cons_cons] at hstep
                cases happ : applyEvent maxN (freshEntry c0) ev with
                | none => rw [happ] at hstep; simp at hstep
                | some q =>
                  obtain ⟨e1, d0⟩ := q
                  rw [happ] at hstep
                  simp only [Option.some_inj] at hstep
                  rw [← hstep]
                  simp only [lruSetFront]
                  have hdl : ((phd :: ptl).dropLast).length = (phd :: ptl).length - 1 :=
                    List.length_dropLast _
                  have hsub : ((phd :: ptl).dropLast).Sublist (phd :: ptl) :=
                    List.dropLast_sublist _
                  have hrel : st.entries.length = ptl.length + 1 := by rw [hse]; simp
                  refine ⟨trivial, ?_, ?_, ?_⟩
                  · simp only [List.length_cons] at *
                    omega
                  · unfold keysNodup at hnd ⊢
                    simp only [List.map_cons]
                    refine List.nodup_cons.mpr ⟨?_, ?_⟩
                    · intro hmem
                      obtain ⟨pq, hpq, hpqk⟩ := List.mem_map.mp hmem
                      have : pq ∈ st.entries := by
                        rw [hse]
                        exact hsub.mem hpq
                      exact hnotin pq this hpqk
                    · rw [hse] at hnd
                      exact hnd.sublist (hsub.map Prod.fst)
                  · intro k e0 hev
                    have hlast : (phd :: ptl).getLast? = some (k, e0) := hev
                    have hdecomp := List.dropLast_append_getLast? (k, e0) hlast
                    have hkmem : (k, e0) ∈ st.entries := by
                      rw [hse, ← hdecomp]
                      exact List.mem_append_right _ (by simp)
                    have hknec0 : k ≠ c0 := hnotin (k, e0) hkmem
                    have hkdrop : k ∉ ((phd :: ptl).dropLast).map Prod.fst := by
                      unfold keysNodup at hnd
                      rw [hse] at hnd
                      rw [← hdecomp] at hnd
                      rw [List.map_append] at hnd
                      have := List.nodup_append.mp hnd
                      intro hmem
                      exact this.2.2 hmem (by simp)
                    refine ⟨by rw [← hse]; exact hlencap, hlast, ?_, ?_⟩
                    · rw [tableFind_eq_none_iff]
                      intro pq hpq
                      rcases List.mem_cons.mp hpq with hh | ht
                      · rw [hh]
                        exact fun hc => hknec0 hc.symm
                      · intro hk
                        exact hkdrop (List.mem_map.mpr ⟨pq, ht, hk⟩)
                    · intro d hd
                      have : d = e1 := by
                        by_cases hd0 : d0 = true
                        · rw [hd0] at hd
                          simp at hd
                          exact hd.symm
                        · rw [Bool.not_eq_true] at hd0
                          rw [hd0] at hd
                          simp at hd
                      rw [this, applyEvent_connID maxN (freshEntry c0) e1 ev d0 happ]
                      simp only [freshEntry]
                      exact fun hc => hknec0 hc.symm
            · rw [if_neg hov] at hstep
              simp only at hstep
              cases happ : applyEvent maxN (freshEntry c0) ev with
              | none => rw [happ] at hstep; simp at hstep
              | some q =>
                obtain ⟨e1, d0⟩ := q
                rw [happ] at hstep
                simp only [Option.some_inj] at hstep
                rw [← hstep]
                simp only [lruSetFront]
                simp only [List.length_cons] at hov
                refine ⟨trivial, ?_, ?_, ?_⟩
                · simp only [List.length_cons]
                  omega
                · unfold keysNodup at hnd ⊢
                  simp only [List.map_cons]
                  refine List.nodup_cons.mpr ⟨?_, hnd⟩
                  intro hmem
                  obtain ⟨pq, hpq, hpqk⟩ := List.mem_map.mp hmem
                  exact hnotin pq hpq hpqk
                · intro k e0 hev
                  simp at hev
    | bool b => simp at hstep
    | str sx => simp at hstep
    | other r => simp at hstep

/-!
Claim theorems C2, C3, C5-C10, with their witnesses and counterexamples.
-/

def lenInv (maxN : Int) (e : LogEntry) : Prop :=
  if e.processed then (e.events.length : Int) ≤ maxN
  else (e.events.length : Int) + 1 ≤ maxN

theorem applyEvent_lenInv (maxN : Int) (e e1 : LogEntry) (ev : Event) (d : Bool)
    (hinv : lenInv maxN e) (h : applyEvent maxN e ev = some (e1, d)) : lenInv maxN e1 := by
  rcases applyEvent_cases maxN e ev e1 d h with ⟨hpt, he, _⟩ | ⟨hp, _, hproc, _, _, hevs⟩
  · rw [he]; exact hinv
  · unfold lenInv at hinv ⊢
    rw [hp] at hinv
    simp only [Bool.false_eq_true, if_false] at hinv
    rw [hproc]
    by_cases hfree : isFree ev = true
    · rw [hfree]
      simp only [if_true]
      rw [hevs, if_pos (Or.inr hfree)]
      simp only [List.length_append, List.length_cons, List.length_nil]
      push_cast
      omega
    · rw [Bool.not_eq_true] at hfree
      rw [hfree]
      simp only [Bool.false_eq_true, if_false]
      rw [hevs]
      by_cases hlen : ((e.events.length : Int) + 1 < maxN)
      · rw [if_pos (Or.inl hlen)]
        simp only [List.length_append, List.length_cons, List.length_nil]
        push_cast
        omega
      · have hcond : ¬ ((e.events.length : Int) + 1 < maxN ∨ isFree ev = true) := by
          rw [hfree]
          simp [hlen]
        rw [if_neg hcond]
        exact hinv

theorem applyEvents_lenInv (maxN : Int) (es : List Event) (e e2 : LogEntry) (ds : List LogEntry)
    (hinv : lenInv maxN e) (h : applyEvents maxN e es = some (e2, ds)) : lenInv maxN e2 := by
  induction es generalizing e ds with
  | nil =>
    simp only [applyEvents, Option.some_inj, Prod.mk.injEq] at h
    rw [← h.1]
    exact hinv
  | cons ev rest ih =>
    simp only [applyEvents] at h
    cases ha : applyEvent maxN e ev with
    | none => rw [ha] at h; simp at h
    | some p =>
      obtain ⟨e1, d⟩ := p
      rw [ha] at h
      simp only at h
      cases hr : applyEvents maxN e1 rest with
      | none => rw [hr] at h; simp at h
      | some q =>
        obtain ⟨e2x, dsx⟩ := q
        rw [hr] at h
        simp only [Option.some_inj, Prod.mk.injEq] at h
        obtain ⟨h1, _⟩ := h
        subst h1
        exact ih e1 dsx (applyEvent_lenInv maxN e e1 ev d hinv ha) hr

/-- C10: at every point, the stored-events sequence of an entry built
from a fresh entry never exceeds the configured maximum (for any
positive configured maximum): non-free events stop being appended one
slot early, and the single always-appended free event lands in the
reserved slot. -/
theorem spec_c10 (maxN : Int) (c : Int) (es : List Event) (e2 : LogEntry) (ds : List LogEntry)
    (hmax : 1 ≤ maxN) (h : applyEvents maxN (freshEntry c) es = some (e2, ds)) :
    (e2.events.length : Int) ≤ maxN := by
  have hbase : lenInv maxN (freshEntry c) := by
    unfold lenInv freshEntry
    simp
    omega
  have hfin := applyEvents_lenInv maxN es (freshEntry c) e2 ds hbase h
  unfold lenInv at hfin
  by_cases hp : e2.processed = true
  · rw [hp] at hfin; simpa using hfin
  · rw [Bool.not_eq_true] at hp
    rw [hp] at hfin
    simp only [Bool.false_eq_true, if_false] at hfin
    omega

/-- C2 (counterexample input): a finalized entry holding one stored
event that is not of type accept. -/
def c2entry : LogEntry :=
  { connID := 7, startTime := some 1, endTime := some 2, sentPn := -1, ackedPn := -1,
    processed := true, numEvents := 1,
    events := [[("conn", JValue.num "7" (some 7)), ("type", JValue.str "receive"),
                ("time", JValue.num "1" (some 1))]] }

/-- C2 counterexample: on a finalized entry with no accept event,
uploadEvents hits the panic in buildObjectName; the panic happens inside
the upload goroutine with no recover, so it aborts the whole process —
the claim that the process does not crash is false at this input. -/
theorem spec_c2_counterexample : uploadEvents "host1" c2entry = none := rfl

/-- C2 amended: for every finalized entry whose retained events contain
no accept event, the object-name construction fails and that upload
produces nothing, but the failure is a panic that kills the whole
process (modelled by the none result of uploadEvents), not a contained
per-upload error. -/
theorem spec_c2_amended (host : String) (e : LogEntry)
    (_hp : e.processed = true)
    (hacc : ∀ ev ∈ e.events, isType ev "accept" = false) :
    uploadEvents host e = none := by
  unfold uploadEvents buildObjectName
  have hfind : e.events.find? (fun ev => getField ev "type" == some (JValue.str "accept")) = none := by
    rw [List.find?_eq_none]
    intro ev hev
    have := hacc ev hev
    unfold isType at this
    simp [this]
  rw [hfind]

/-- C2 amended witness at the concrete c2entry. -/
theorem spec_c2_amended_witness :
    c2entry.processed = true ∧ (∀ ev ∈ c2entry.events, isType ev "accept" = false) ∧
    uploadEvents "host1x" c2entry = none :=
  ⟨rfl, by decide, spec_c2_amended "host1x" c2entry rfl (by decide)⟩

/-- C3: when a connection receives more events than the configured cap
(and at least one event beyond it) before its terminal free event, the
envelope reports the true total in numEvents, the payload length equals
the cap, and the free event is present in the payload. Requires a
positive configured cap. -/
theorem spec_c3 (maxN c : Int) (es : List Event) (fv : Event) (host id : String)
    (hmax : 1 ≤ maxN)
    (hes : ∀ ev ∈ es, benign ev = true ∧ isFree ev = false)
    (hbf : benign fv = true) (hff : isFree fv = true)
    (hover : maxN ≤ (es.length : Int)) :
    ∃ e3, applyEvents maxN (freshEntry c) (es ++ [fv]) = some (e3, [e3]) ∧
      (serializeEvents host id e3).numEvents = es.length + 1 ∧
      (((serializeEvents host id e3).payload.length : Int)) = maxN ∧
      fv ∈ (serializeEvents host id e3).payload := by
  obtain ⟨e3, hrun, hproc, hcid, hnum, hevs⟩ := applyEvents_run_free maxN es fv c hes hbf hff
  refine ⟨e3, hrun, hnum, ?_, ?_⟩
  · show ((e3.events.length : Int)) = maxN
    rw [hevs, List.length_append]
    have htake : (es.take ((maxN - 1).toNat)).length = (maxN - 1).toNat := by
      rw [List.length_take]
      exact Nat.min_eq_left (by omega)
    rw [htake]
    simp only [List.length_cons, List.length_nil]
    omega
  · show fv ∈ e3.events
    rw [hevs]
    exact List.mem_append_right _ (by simp)

def c3a1 : Event := [("conn", JValue.num "4" (some 4)), ("time", JValue.num "10" (some 10))]
def c3a2 : Event := [("conn", JValue.num "4" (some 4)), ("time", JValue.num "11" (some 11))]
def c3free : Event :=
  [("conn", JValue.num "4" (some 4)), ("time", JValue.num "12" (some 12)),
   ("type", JValue.str "free")]

/-- C3 witness: cap 2, three events (two plus the free). -/
theorem spec_c3_witness :
    ((1 : Int) ≤ 2 ∧ (2 : Int) ≤ (([c3a1, c3a2] : List Event).length : Int)) ∧
    ∃ e3, applyEvents 2 (freshEntry 4) ([c3a1, c3a2] ++ [c3free]) = some (e3, [e3]) ∧
      (serializeEvents "h" "i" e3).numEvents = ([c3a1, c3a2] : List Event).length + 1 ∧
      (((serializeEvents "h" "i" e3).payload.length : Int)) = 2 ∧
      c3free ∈ (serializeEvents "h" "i" e3).payload :=
  ⟨⟨by decide, by decide⟩,
    spec_c3 2 4 [c3a1, c3a2] c3free "h" "i" (by decide) (by decide) (by decide) (by decide)
      (by decide)⟩

/-- C5 counterexample: with both sinks configured and the local write
failing, storageManager.write returns before touching the bucket — the
remote write is not attempted, so sink independence is false. -/
theorem spec_c5_counterexample :
    (storageWrite true true false true true).localAttempted = true ∧
    (storageWrite true true false true true).bucketAttempted = false := by
  decide

/-- C5 amended: the two sink writes are sequential, local first; the
local write is always attempted, and the bucket write is attempted
exactly when the local write succeeded (so a bucket failure cannot stop
the local write, but a local failure skips the bucket write). -/
theorem spec_c5_amended :
    ∀ (localOk bucketWriteOk bucketCloseOk : Bool),
      (storageWrite true true localOk bucketWriteOk bucketCloseOk).localAttempted = true ∧
      (storageWrite true true localOk bucketWriteOk bucketCloseOk).bucketAttempted = localOk := by
  decide

/-- C6 (failing inputs): an event with conn but no time field, and a
packet-sent event with time but no pn field. -/
def c6evNoTime : Event := [("conn", JValue.num "1" (some 1))]

def c6evNoPn : Event :=
  [("conn", JValue.num "1" (some 1)), ("time", JValue.num "100" (some 100)),
   ("type", JValue.str "packet-sent")]

/-- C6: the code panics (none = process death) on a decoded event that
lacks the time field, and on a packet-sent event that lacks the pn
field, instead of skipping the missing field and continuing as the spec
requires: the single-valued type assertions at main.go lines 178 and 192
panic on a nil interface. -/
theorem spec_c6_code_bug :
    processEvent maxNumEventsDefault connToLogs c6evNoTime = none ∧
    processEvent maxNumEventsDefault connToLogs c6evNoPn = none :=
  ⟨rfl, rfl⟩

/-- C7: a connection with fewer attributed events than the cap,
finalized by a free event, uploads exactly all its events, verbatim and
in arrival order, and numEvents is the true count. -/
theorem spec_c7 (maxN c : Int) (es : List Event) (fv : Event) (host id : String)
    (hes : ∀ ev ∈ es, benign ev = true ∧ isFree ev = false)
    (hbf : benign fv = true) (hff : isFree fv = true)
    (hunder : (es.length : Int) + 1 < maxN) :
    ∃ e3, applyEvents maxN (freshEntry c) (es ++ [fv]) = some (e3, [e3]) ∧
      (serializeEvents host id e3).payload = es ++ [fv] ∧
      (serializeEvents host id e3).numEvents = es.length + 1 := by
  obtain ⟨e3, hrun, _, _, hnum, hevs⟩ := applyEvents_run_free maxN es fv c hes hbf hff
  refine ⟨e3, hrun, ?_, hnum⟩
  show e3.events = es ++ [fv]
  rw [hevs, List.take_of_length_le (by omega : es.length ≤ (maxN - 1).toNat)]

/-- C7 witness: cap 5, one event plus the free. -/
theorem spec_c7_witness :
    ((([c3a1] : List Event).length : Int) + 1 < 5) ∧
    ∃ e3, applyEvents 5 (freshEntry 4) ([c3a1] ++ [c3free]) = some (e3, [e3]) ∧
      (serializeEvents "h" "i" e3).payload = [c3a1] ++ [c3free] ∧
      (serializeEvents "h" "i" e3).numEvents = ([c3a1] : List Event).length + 1 :=
  ⟨by decide,
    spec_c7 5 4 [c3a1] c3free "h" "i" (by decide) (by decide) (by decide) (by decide)⟩

/-- C8 (counterexample input): an entry one stored event below a cap of
2, and a benign non-free event. -/
def c8entry : LogEntry :=
  { connID := 9, startTime := some 100, endTime := some 100, sentPn := -1, ackedPn := -1,
    processed := false, numEvents := 1, events := [[("time", JValue.num "100" (some 100))]] }

def c8ev : Event := [("time", JValue.num "101" (some 101))]

/-- C8 counterexample: the stored-event count (1) has not reached the
configured maximum (2), yet the non-free event is not appended, because
the append condition reserves one slot for the free event
(len(events)+1 < max). The claim as stated says it would be appended. -/
theorem spec_c8_counterexample :
    c8entry.events.length < 2 ∧ isFree c8ev = false ∧
    applyEvent 2 c8entry c8ev =
      some ({ c8entry with endTime := some 101, numEvents := 2 }, false) :=
  ⟨by decide, rfl, rfl⟩

/-- C8 amended: a non-finalized entry appends a benign event exactly
when the stored-event count is at least two below the configured
maximum (len+1 < max); an event of type free is appended
unconditionally. -/
theorem spec_c8_amended (maxN : Int) (e : LogEntry) (ev : Event)
    (hp : e.processed = false) (hb : benign ev = true) :
    ∃ e1 d, applyEvent maxN e ev = some (e1, d) ∧
      e1.events = (if ((e.events.length : Int) + 1 < maxN ∨ isFree ev = true)
        then e.events ++ [ev] else e.events) := by
  obtain ⟨⟨e1, d⟩, h⟩ := Option.isSome_iff_exists.mp (applyEvent_isSome maxN e ev hb)
  rcases applyEvent_cases maxN e ev e1 d h with ⟨hpt, _, _⟩ | ⟨_, _, _, _, _, hevs⟩
  · rw [hp] at hpt; exact absurd hpt (by simp)
  · exact ⟨e1, d, h, hevs⟩

def c8freeEv : Event := [("time", JValue.num "7" (some 7)), ("type", JValue.str "free")]

/-- C8 amended witness: with cap 1 a free event is still appended. -/
theorem spec_c8_amended_witness :
    (freshEntry 3).processed = false ∧ benign c8freeEv = true ∧
    ∃ e1 d, applyEvent 1 (freshEntry 3) c8freeEv = some (e1, d) ∧
      e1.events = (if ((((freshEntry 3).events.length : Int)) + 1 < 1 ∨ isFree c8freeEv = true)
        then (freshEntry 3).events ++ [c8freeEv] else (freshEntry 3).events) :=
  ⟨rfl, by decide, spec_c8_amended 1 (freshEntry 3) c8freeEv rfl (by decide)⟩

/-- C9 (scenario inputs): the three decoded events of the concrete
scenario in the spec. -/
def c9e1 : Event :=
  [("conn", JValue.num "1" (some 1)), ("type", JValue.str "accept"),
   ("dcid", JValue.str "abc"), ("time", JValue.num "100" (some 100))]

def c9e2 : Event :=
  [("conn", JValue.num "1" (some 1)), ("type", JValue.str "packet-sent"),
   ("pn", JValue.num "5" (some 5)), ("time", JValue.num "101" (some 101))]

def c9e3 : Event :=
  [("conn", JValue.num "1" (some 1)), ("type", JValue.str "free"),
   ("time", JValue.num "200" (some 200))]

/-- The entry the C9 scenario finalizes and uploads. -/
def c9final : LogEntry :=
  { connID := 1, startTime := some 100, endTime := some 200, sentPn := 5, ackedPn := -1,
    processed := true, numEvents := 3, events := [c9e1, c9e2, c9e3] }

/-- C9: the three-line scenario dispatches exactly one upload; the
object name is the host label followed by -abc-100, and the envelope has
sentPn 5, ackedPn -1, numEvents 3, and a payload of length 3. -/
theorem spec_c9 (host : String) :
    processEvents maxNumEventsDefault connToLogs [c9e1, c9e2, c9e3] =
      some ({ capacity := 10000, entries := [(1, c9final)] }, [c9final]) ∧
    uploadEvents host c9final =
      some (host ++ "-abc-100",
        { id := host ++ "-abc-100", host := host, startTime := some 100, endTime := some 200,
          numEvents := 3, connID := 1, sentPn := 5, ackedPn := -1,
          payload := [c9e1, c9e2, c9e3] }) ∧
    c9final.events.length = 3 := by
  refine ⟨rfl, ?_, rfl⟩
  have hname : host ++ "-" ++ "abc" ++ "-" ++ "100" = host ++ "-abc-100" := by
    rw [String.append_assoc, String.append_assoc, String.append_assoc]
    congr 1
  calc uploadEvents host c9final
      = some (host ++ "-" ++ "abc" ++ "-" ++ "100",
          { id := host ++ "-" ++ "abc" ++ "-" ++ "100", host := host, startTime := some 100,
            endTime := some 200, numEvents := 3, connID := 1, sentPn := 5, ackedPn := -1,
            payload := [c9e1, c9e2, c9e3] }) := rfl
    _ = _ := by rw [hname]

/-- C10 witness pieces: a fresh entry finalized by one free event under
cap 1. -/
def c10fe : LogEntry :=
  { connID := 1, startTime := some 7, endTime := some 7, sentPn := -1, ackedPn := -1,
    processed := true, numEvents := 1, events := [c8freeEv] }

/-- C10 witness. -/
theorem spec_c10_witness :
    (1 : Int) ≤ 1 ∧ ((c10fe.events.length : Int) ≤ 1) :=
  ⟨by decide, spec_c10 1 1 [c8freeEv] c10fe [c10fe] (by decide) rfl⟩

/-- C1 witness pieces: a table holding one already-finalized entry and a
later event for its connection. -/
def c1entry : LogEntry :=
  { connID := 1, startTime := some 5, endTime := some 6, sentPn := 2, ackedPn := 1,
    processed := true, numEvents := 4, events := [] }

def c1st : Lru := { capacity := 10000, entries := [(1, c1entry)] }

def c1ev : Event := [("conn", JValue.num "1" (some 1)), ("time", JValue.num "300" (some 300))]

/-- C1 witness. -/
theorem spec_c1_witness :
    processEvent maxNumEventsDefault c1st c1ev =
      some ⟨{ c1st with entries := (1, c1entry) :: tableRemove c1st.entries 1 }, none, none⟩ :=
  spec_c1.1 maxNumEventsDefault c1st c1ev "1" 1 c1entry rfl rfl rfl

/-- C4 witness pieces: a capacity-1 table whose single entry gets
evicted by an insert for a new connection. -/
def c4old : LogEntry := freshEntry 2

def c4st : Lru := { capacity := 1, entries := [(2, c4old)] }

def c4ev : Event := [("conn", JValue.num "1" (some 1)), ("time", JValue.num "50" (some 50))]

def c4new : LogEntry :=
  { connID := 1, startTime := some 50, endTime := some 50, sentPn := -1, ackedPn := -1,
    processed := false, numEvents := 1, events := [c4ev] }

def c4out : StepOut :=
  { table := { capacity := 1, entries := [(1, c4new)] }, dispatched := none,
    evicted := some (2, c4old) }

/-- C4 witness. -/
theorem spec_c4_witness :
    (1 ≤ c4st.capacity ∧ keysNodup c4st ∧ c4st.entries.length ≤ c4st.capacity) ∧
    (c4out.table.capacity = c4st.capacity ∧
      c4out.table.entries.length ≤ c4st.capacity ∧
      keysNodup c4out.table ∧
      (∀ k e0, c4out.evicted = some (k, e0) →
        c4st.entries.length = c4st.capacity ∧
        c4st.entries.getLast? = some (k, e0) ∧
        tableFind c4out.table.entries k = none ∧
        (∀ d, c4out.dispatched = some d → d.connID ≠ k))) :=
  ⟨⟨by decide, by unfold keysNodup; decide, by decide⟩,
    spec_c4.2.2 maxNumEventsDefault c4st c4ev c4out (by decide) (by unfold keysNodup; decide)
      (by decide) rfl⟩
